import Mathlib

/-!
Verification of the email-to-order extraction pipeline of this repository
(`app/services/email_processor.py`, `app/models/base.py`) against its
natural-language specification.

The Python code is shallowly embedded: strings are Lean `String`s over their
character lists, Python floats carrying confidence scores / similarity ratios
are modelled as exact rationals (`ℚ`), Python `None` becomes `Option`, pandas
data frames become lists of typed rows, and the `difflib` standard-library
fuzzy matcher is embedded by translating its algorithm (`SequenceMatcher`
matching blocks and `get_close_matches`).  All definitions are executable so
concrete runs of the embedded pipeline can be evaluated inside proofs.
-/

set_option linter.unusedVariables false

namespace EmailProcessorModel

/-! ### Python string primitives used by the source -/

/-- ASCII decimal digit, modelling the character class matched by a digit run
in the source's regular expressions (inputs of interest are ASCII). -/
def pyIsDigit (c : Char) : Bool := '0' ≤ c && c ≤ '9'

/-- The whitespace characters of Python's default `str.strip()` and of the
regex class `\s` (ASCII subset). -/
def pyWhitespaceChars : List Char := [' ', '\t', '\n', '\r', '\x0b', '\x0c']

/-- `str.strip(chars)` : remove the given characters from both ends. -/
def pyStripChars (cs : List Char) (s : String) : String :=
  ⟨((s.data.dropWhile (fun c => cs.contains c)).reverse.dropWhile
      (fun c => cs.contains c)).reverse⟩

/-- `str.strip()` with no argument: strip whitespace from both ends. -/
def pyStrip (s : String) : String := pyStripChars pyWhitespaceChars s

/-- Line-break characters recognised by Python's `str.splitlines` (the
ASCII ones plus the Unicode line/paragraph separators). -/
def isLineBreakChar (c : Char) : Bool :=
  c = '\n' || c = '\r' || c = '\x0b' || c = '\x0c' ||
  c.toNat = 0x1c || c.toNat = 0x1d || c.toNat = 0x1e ||
  c.toNat = 0x85 || c.toNat = 0x2028 || c.toNat = 0x2029

/-- Worker for `pySplitlines`; `acc` holds the current line reversed. -/
def splitlinesAux : List Char → List Char → List String
  | [], acc => if acc.isEmpty then [] else [⟨acc.reverse⟩]
  | '\r' :: '\n' :: rest, acc => ⟨acc.reverse⟩ :: splitlinesAux rest []
  | c :: rest, acc =>
    if isLineBreakChar c then ⟨acc.reverse⟩ :: splitlinesAux rest []
    else splitlinesAux rest (c :: acc)

/-- Python `str.splitlines()`: split at line breaks, no trailing empty line. -/
def pySplitlines (s : String) : List String := splitlinesAux s.data []

/-- Whether `needle` is a prefix of `hay` (character lists). -/
def listIsPrefix : List Char → List Char → Bool
  | [], _ => true
  | _ :: _, [] => false
  | c :: cs, d :: ds => c = d && listIsPrefix cs ds

/-- Whether `needle` occurs contiguously inside `hay` (character lists). -/
def listIsSub (needle : List Char) : List Char → Bool
  | [] => needle.isEmpty
  | d :: ds => listIsPrefix needle (d :: ds) || listIsSub needle ds

/-- Python's substring test `needle in hay` (contiguous occurrence). -/
def pyContains (hay needle : String) : Bool := listIsSub needle.data hay.data

/-- `str.lower()` (ASCII range, which covers the catalog data and keyword
lists the source compares). -/
def pyToLower (s : String) : String := ⟨s.data.map Char.toLower⟩

/-- The first maximal digit run of a character list, if any; models
`re.search(r'(\d+)', line)`. -/
def firstDigitRunAux : List Char → Option (List Char)
  | [] => none
  | c :: rest =>
    if pyIsDigit c then some (c :: rest.takeWhile pyIsDigit)
    else firstDigitRunAux rest

/-- Parse a digit run as a natural number, as `int(...)` does. -/
def digitsToNat (ds : List Char) : Nat :=
  ds.foldl (fun n c => 10 * n + (c.toNat - '0'.toNat)) 0

/-- `int(re.search(r'(\d+)', line).group(1))` when a digit run exists. -/
def firstDigitRun (s : String) : Option Nat :=
  (firstDigitRunAux s.data).map digitsToNat

/-- `re.sub(r'(\d+)', '', line)` : delete every digit character. -/
def removeDigits (s : String) : String := ⟨s.data.filter (fun c => !pyIsDigit c)⟩

/-- Python string `<` (lexicographic on code points), used by tuple
comparison inside `heapq.nlargest` on `(score, string)` pairs. -/
def pyStrLtAux : List Char → List Char → Bool
  | [], [] => false
  | [], _ :: _ => true
  | _ :: _, [] => false
  | c :: cs, d :: ds => if c = d then pyStrLtAux cs ds else decide (c < d)

/-- Python string `<` on `String`. -/
def pyStrLt (s t : String) : Bool := pyStrLtAux s.data t.data

/-! ### The `difflib` fuzzy matcher

`difflib.SequenceMatcher` (with no junk predicate, as both call sites use it)
computes a similarity `ratio = 2*M/(len a + len b)` where `M` is the total
size of the matching blocks produced by repeatedly taking the longest
matching block and recursing on both sides.  The second sequence `b` is the
query word; when `len b ≥ 200` the "autojunk" heuristic removes popular
characters of `b` from the index used to seed matches (they can still extend
a match).  Floats are replaced by exact rationals. -/

/-- Default character used for (unreachable) out-of-range list reads. -/
def dChar : Char := ' '

/-- The occurrence positions of `c` in `b` (ascending), with the autojunk
purge of popular elements, as built by `SequenceMatcher.set_seq2`. -/
def b2j (b : List Char) (c : Char) : List Nat :=
  if b.length ≥ 200 && b.count c > b.length / 100 + 1 then []
  else (List.range b.length).filter (fun j => b.getD j dChar = c)

/-- Extend the best block to the left while previous characters match,
as the first `while` loop after the dynamic program. -/
def extendLeft (a b : List Char) (alo blo : Nat) :
    Nat → Nat × Nat × Nat → Nat × Nat × Nat
  | 0, st => st
  | fuel + 1, (besti, bestj, bestsize) =>
    if alo < besti ∧ blo < bestj ∧
        a.getD (besti - 1) dChar = b.getD (bestj - 1) dChar then
      extendLeft a b alo blo fuel (besti - 1, bestj - 1, bestsize + 1)
    else (besti, bestj, bestsize)

/-- Extend the best block to the right while following characters match,
as the second `while` loop after the dynamic program. -/
def extendRight (a b : List Char) (ahi bhi : Nat) :
    Nat → Nat × Nat × Nat → Nat × Nat × Nat
  | 0, st => st
  | fuel + 1, (besti, bestj, bestsize) =>
    if besti + bestsize < ahi ∧ bestj + bestsize < bhi ∧
        a.getD (besti + bestsize) dChar = b.getD (bestj + bestsize) dChar then
      extendRight a b ahi bhi fuel (besti, bestj, bestsize + 1)
    else (besti, bestj, bestsize)

/-- One step of the inner `for j in b2j.get(a[i], [])` loop of
`find_longest_match`: `j2len` is the previous row of run lengths as an
association list, `nj` the row being built, and the triple the best block. -/
def flmInnerStep (i : Nat) (j2len : List (Nat × Nat))
    (st : List (Nat × Nat) × (Nat × Nat × Nat)) (j : Nat) :
    List (Nat × Nat) × (Nat × Nat × Nat) :=
  let nj := st.1
  let best := st.2
  let k := (if j = 0 then 0 else ((j2len.lookup (j - 1)).getD 0)) + 1
  let best' := if k > best.2.2 then (i + 1 - k, j + 1 - k, k) else best
  ((j, k) :: nj, best')

/-- `SequenceMatcher.find_longest_match(alo, ahi, blo, bhi)`: the dynamic
program over the rows of `a`, followed by the two extension loops (the junk
extension loops are identities because no junk predicate is supplied). -/
def findLongestMatch (a b : List Char) (alo ahi blo bhi : Nat) :
    Nat × Nat × Nat :=
  let dp := (List.range (ahi - alo)).foldl
    (fun (st : List (Nat × Nat) × (Nat × Nat × Nat)) di =>
      let i := alo + di
      let js := (b2j b (a.getD i dChar)).filter (fun j => blo ≤ j ∧ j < bhi)
      let inner := js.foldl (flmInnerStep i st.1) ([], st.2)
      inner)
    ([], (alo, blo, 0))
  let st1 := extendLeft a b alo blo (dp.2.1 + dp.2.2.1) dp.2
  extendRight a b ahi bhi (ahi + bhi) st1

/-- Total size of the matching blocks of `get_matching_blocks`: take the
longest match, recurse left and right.  `fuel` dominates the recursion depth
(each call strictly shrinks the combined range). -/
def matchedSize (a b : List Char) : Nat → Nat → Nat → Nat → Nat → Nat
  | 0, _, _, _, _ => 0
  | fuel + 1, alo, ahi, blo, bhi =>
    let m := findLongestMatch a b alo ahi blo bhi
    let i := m.1
    let j := m.2.1
    let k := m.2.2
    if k = 0 then 0
    else k + matchedSize a b fuel alo i blo j +
         matchedSize a b fuel (i + k) ahi (j + k) bhi

/-- `SequenceMatcher(None, a, b).ratio()` as an exact rational:
`2*M/(len a + len b)`, and `1` when both sequences are empty
(`_calculate_ratio`). -/
def pyRatioQ (a b : List Char) : ℚ :=
  if a.length + b.length = 0 then 1
  else mkRat (2 * (matchedSize a b (a.length + b.length + 1) 0 a.length 0 b.length))
             (a.length + b.length)

/-- One fold step of `get_close_matches(word, _, n=1, cutoff)`: keep the
candidate scoring at least the cutoff that maximises the Python pair
`(ratio, string)` (`heapq.nlargest` compares the string on ratio ties). -/
def gcmStep (word : String) (cutoff : ℚ) (acc : Option (ℚ × String))
    (x : String) : Option (ℚ × String) :=
  match acc with
  | none =>
    if cutoff ≤ pyRatioQ x.data word.data then
      some (pyRatioQ x.data word.data, x)
    else none
  | some (br, bx) =>
    if cutoff ≤ pyRatioQ x.data word.data then
      if br < pyRatioQ x.data word.data ∨
          (br = pyRatioQ x.data word.data ∧ pyStrLt bx x) then
        some (pyRatioQ x.data word.data, x)
      else some (br, bx)
    else some (br, bx)

/-- `difflib.get_close_matches(word, possibilities, n=1, cutoff)`, returning
the single best match above the cutoff if any (the `real_quick_ratio` /
`quick_ratio` pre-checks of the library are upper bounds of `ratio` and do
not change the result). -/
def getCloseMatch1 (word : String) (possibilities : List String)
    (cutoff : ℚ) : Option String :=
  (possibilities.foldl (gcmStep word cutoff) none).map (fun p => p.2)

/-! ### Data model (`app/models/base.py`)

The pydantic models become structures.  `created_at` (a wall-clock default
`datetime.now()`) is outside the embedding; `received_at` is carried as its
`strftime('%Y%m%d%H%M%S')` rendering, the only use the pipeline makes of it.
Floats become exact rationals. -/

/-- A catalog row, keyed by the column names the source reads from the CSV
(`Product_Name`, `Product_Code`, `Min_Order_Quantity`, `Available_in_Stock`,
`Price`). -/
structure CatalogRow where
  Product_Name : String
  Product_Code : String
  Min_Order_Quantity : Int
  Available_in_Stock : Int
  Price : ℚ
deriving DecidableEq

/-- `OrderItem` of `app/models/base.py`. -/
structure OrderItem where
  sku : String
  quantity : Int
  confidence_score : ℚ
  notes : Option String := none
  suggested_replacements : Option (List String) := none
  validation_issues : Option (List String) := none
  price : ℚ := 0
deriving DecidableEq

/-- `Order` of `app/models/base.py` (lines 38-46).  Note that the model
declares no `delivery_details` and no `notes` field. -/
structure Order where
  order_id : String
  customer_email : String
  items : List OrderItem
  delivery_preferences : Option String := none
  status : String := "pending"
  total_confidence_score : ℚ
  validation_issues : Option (List String) := none
deriving DecidableEq

/-- The dictionary `{"address": ..., "date": ...}` returned by
`extract_delivery_details`. -/
structure DeliveryDetailsDict where
  address : Option String
  date : Option String
deriving DecidableEq

/-- `EmailContent` of `app/models/base.py` (fields the pipeline reads). -/
structure EmailContent where
  raw_content : String
  sender : Option String := none
  received_at_fmt : Option String := none
deriving DecidableEq

/-- The keyword arguments `EmailProcessor.process_email` passes to the
`Order(...)` constructor, including `delivery_details` and `notes`. -/
structure OrderKwargs where
  order_id : String
  customer_email : String
  items : List OrderItem
  total_confidence_score : ℚ
  validation_issues : List String
  delivery_details : DeliveryDetailsDict
  notes : Option String

/-- The pydantic `Order(...)` constructor under its default handling of
extra keyword arguments: keywords that are not declared fields of `Order`
(`delivery_details` and `notes` among them) are silently ignored, and the
declared fields `delivery_preferences` and `status` take their defaults. -/
def Order.fromKwargs (k : OrderKwargs) : Order :=
  { order_id := k.order_id
    customer_email := k.customer_email
    items := k.items
    total_confidence_score := k.total_confidence_score
    validation_issues := some k.validation_issues }

/-! ### `app/services/email_processor.py` -/

/-- `NON_PRODUCT_PHRASES` (lines 9-11). -/
def NON_PRODUCT_PHRASES : List String :=
  ["deliver to", "let me know", "pricing", "availability", "before",
   "address", "do deliver", "meguro", "japan"]

/-- The noise test of line 144:
`any(phrase in extracted_name.lower() for phrase in NON_PRODUCT_PHRASES)`. -/
def isNoisePhrase (extracted_name : String) : Bool :=
  NON_PRODUCT_PHRASES.any (fun phrase => pyContains (pyToLower extracted_name) phrase)

/-- The union `catalog['Product_Name'].tolist() + catalog['Product_Code'].tolist()`. -/
def allNames (catalog : List CatalogRow) : List String :=
  catalog.map (fun r => r.Product_Name) ++ catalog.map (fun r => r.Product_Code)

/-- `EmailProcessor.find_product` (lines 92-106): case-insensitive exact
match on `Product_Name`, then on `Product_Code`, then a fuzzy
`get_close_matches(..., n=1, cutoff=0.8)` against all names and codes,
resolving the matched string to the first row owning it. -/
def find_product (catalog : List CatalogRow) (extracted_name : String) :
    Option CatalogRow :=
  match catalog.find? (fun r => pyToLower r.Product_Name = pyToLower extracted_name) with
  | some r => some r
  | none =>
    match catalog.find? (fun r => pyToLower r.Product_Code = pyToLower extracted_name) with
    | some r => some r
    | none =>
      match getCloseMatch1 extracted_name (allNames catalog) (mkRat 4 5) with
      | some match_name =>
        catalog.find? (fun r =>
          r.Product_Name = match_name || r.Product_Code = match_name)
      | none => none

/-- The f-string of line 161. -/
def moqMsg (p : CatalogRow) (q : Int) : String :=
  "Quantity " ++ toString q ++ " is below MOQ of " ++
    toString p.Min_Order_Quantity ++ " for " ++ p.Product_Name

/-- The f-string of line 164. -/
def stockMsg (p : CatalogRow) (q : Int) : String :=
  "Requested quantity " ++ toString q ++ " exceeds available stock of " ++
    toString p.Available_in_Stock ++ " for " ++ p.Product_Name

/-- The suggestion string of line 162. -/
def moqSuggestion (p : CatalogRow) : String :=
  "Increase quantity to " ++ toString p.Min_Order_Quantity

/-- The suggestion string of line 165. -/
def stockSuggestion (p : CatalogRow) : String :=
  "Reduce quantity to " ++ toString p.Available_in_Stock

/-- The issue string of line 153. -/
def notFoundMsg : String := "Product not found in catalog"

/-- `EmailProcessor.validate_against_catalog` (lines 149-166).  In the
`not product` branch the source evaluates
`difflib.get_close_matches(product, all_names, n=2, cutoff=0.6) if product
else []`; `product` is falsy there, so the suggestion list is `[]`. -/
def validate_against_catalog (catalog : List CatalogRow)
    (product : Option CatalogRow) (quantity : Int) :
    Bool × List String × List String :=
  match product with
  | none => (false, [notFoundMsg], [])
  | some p =>
    let issues :=
      (if quantity < p.Min_Order_Quantity then [moqMsg p quantity] else []) ++
      (if quantity > p.Available_in_Stock then [stockMsg p quantity] else [])
    let suggestions :=
      (if quantity < p.Min_Order_Quantity then [moqSuggestion p] else []) ++
      (if quantity > p.Available_in_Stock then [stockSuggestion p] else [])
    (issues.isEmpty, issues, suggestions)

/-- The separator characters stripped around a candidate phrase
(`.strip(' -:x*.,')`, line 134). -/
def sepChars : List Char := [' ', '-', ':', 'x', '*', '.', ',']

/-- The candidate phrase of line 134:
`re.sub(r'(\d+)', '', line).strip(' -:x*.,')`. -/
def candidatePhrase (line : String) : String :=
  pyStripChars sepChars (removeDigits line)

/-- One extracted tuple `(product, quantity, confidence, extracted_name)`. -/
structure ExtractedEntry where
  product : Option CatalogRow
  quantity : Int
  confidence : ℚ
  extracted_name : String
deriving DecidableEq

/-- The body of the `for line in text.splitlines()` loop of
`extract_products_and_quantities` (lines 128-146): skip lines without a
digit run, take the first digit run as the quantity, fuzzy-match the
de-numbered candidate against catalog names at cutoff 0.6, and drop the
line when the resulting `extracted_name` contains a noise phrase. -/
def lineEntry (catalog : List CatalogRow) (line : String) :
    Option ExtractedEntry :=
  match firstDigitRun line with
  | none => none
  | some n =>
    let candidate := candidatePhrase line
    let matched := getCloseMatch1 candidate
      (catalog.map (fun r => r.Product_Name)) (mkRat 3 5)
    let e : ExtractedEntry :=
      match matched with
      | some best => ⟨find_product catalog best, (n : Int), 1, best⟩
      | none => ⟨none, (n : Int), mkRat 1 2, candidate⟩
    if isNoisePhrase e.extracted_name then none else some e

/-- `EmailProcessor.extract_products_and_quantities` (lines 125-147). -/
def extract_products_and_quantities (catalog : List CatalogRow)
    (text : String) : List ExtractedEntry :=
  (pySplitlines text).filterMap (lineEntry catalog)

/-- A loaded tabular catalog source as pandas sees it: its column names
(the row data is irrelevant to `__init__`). -/
structure CsvFrame where
  columns : List String
deriving DecidableEq

/-- `EmailProcessor.__init__` (lines 86-90): `pd.read_csv` imposes no
required columns; the constructor then reads only the `Product_Name` column
(to build the product-name regex), so a pandas `KeyError` escapes at load
time exactly when that column is absent.  The `sku_pattern` and
`quantity_pattern` regex compilations always succeed. -/
def emailProcessorInit (frame : CsvFrame) : Except String Unit :=
  if "Product_Name" ∈ frame.columns then Except.ok ()
  else Except.error "KeyError: Product_Name"

/-! ### Delivery-details extraction (`extract_delivery_details`, lines 19-83)

The address half (lines 22-56) is embedded in full.  The date half
(lines 60-80) calls the external `dateparser` library; it is abstracted as a
function parameter `dateExtract` wherever the pipeline needs it, which is
sound for the claims below because none of them constrains the date value. -/

/-- `address_keywords` (lines 27-29), in source order. -/
def address_keywords : List String :=
  ["ship to", "send to", "delivery address", "please deliver to",
   "deliver to", "recipient", "address is", "ship them to"]

/-- The alternatives of the address-fragment regex of lines 39 and 54. -/
def addressTokens : List String :=
  ["street", "st", "avenue", "ave", "road", "rd", "lane", "ln", "blvd",
   "drive", "dr", "way", "court", "ct", "plaza", "circle", "parkway",
   "square", "block", "bldg", "suite", "apt", "unit", "room", "po box",
   "city", ","]

/-- `re.search(r'(street|st|...|,)', s, re.IGNORECASE)` as a Boolean: some
alternative occurs in `s` case-insensitively. -/
def looksLikeAddressFragment (s : String) : Bool :=
  addressTokens.any (fun t => pyContains (pyToLower s) t)

/-- The characters after the first `':'`, if the list has one. -/
def afterColonAux : List Char → Option (List Char)
  | [] => none
  | ':' :: rest => some rest
  | _ :: rest => afterColonAux rest

/-- `line.split(':', 1)[-1]`: the text after the first colon, or the whole
string when it contains no colon. -/
def pyAfterColon (s : String) : String :=
  match afterColonAux s.data with
  | some rest => ⟨rest⟩
  | none => s

/-- The first address keyword contained (case-insensitively) in the line,
as found by the inner `for keyword in address_keywords` loop. -/
def keywordOf (line : String) : Option String :=
  address_keywords.find? (fun k => pyContains (pyToLower line) k)

/-- The body of the keyword loop (lines 30-45) at one line, where `post` is
the list of following (already stripped, non-empty) lines: take the text
after the first colon if non-empty and not the keyword itself, else the
next line, appending the line after it when that one looks like an address
fragment.  `none` when no keyword occurs or nothing can be assigned. -/
def keywordStepOn (line : String) (post : List String) : Option String :=
  match keywordOf line with
  | none => none
  | some keyword =>
    let after_colon := pyStrip (pyAfterColon line)
    if after_colon ≠ "" ∧ pyToLower after_colon ≠ keyword then some after_colon
    else
      match post with
      | [] => none
      | next :: rest =>
        match rest with
        | [] => some next
        | third :: _ =>
          if looksLikeAddressFragment third then some (next ++ ", " ++ third)
          else some next

/-- The outer `for i, line in enumerate(lines)` loop of lines 30-45: the
first line whose keyword step assigns an address wins. -/
def addressKeywordLoop : List String → Option String
  | [] => none
  | line :: rest =>
    match keywordStepOn line rest with
    | some a => some a
    | none => addressKeywordLoop rest

/-- `'x'` followed by optional whitespace and a digit at the head of the
list: the `x\s*\d+` alternative of the product-line regex (line 51),
applied to a lowercased line. -/
def xDigitAt (l : List Char) : Bool :=
  match l with
  | 'x' :: rest => pyIsDigit ((rest.dropWhile (fun c => pyWhitespaceChars.contains c)).headD dChar)
  | _ => false

/-- `"need "` followed by a digit at the head of the list (line 51). -/
def needDigitAt (l : List Char) : Bool :=
  listIsPrefix "need ".data l && pyIsDigit ((l.drop 5).headD dChar)

/-- Scan for `re.search(r'(pcs|qty|x\s*\d+|need \d+)', line, re.IGNORECASE)`
over the lowercased character list. -/
def productLineScan : List Char → Bool
  | [] => false
  | c :: rest =>
    listIsPrefix "pcs".data (c :: rest) || listIsPrefix "qty".data (c :: rest) ||
    xDigitAt (c :: rest) || needDigitAt (c :: rest) || productLineScan rest

/-- Whether a line matches the product-line pattern of line 51. -/
def hasProductLinePattern (line : String) : Bool :=
  productLineScan (pyToLower line).data

/-- `[line.strip() for line in text.splitlines() if line.strip()]` (line 22). -/
def cleanLines (text : String) : List String :=
  ((pySplitlines text).map pyStrip).filter (fun l => l ≠ "")

/-- The address result of `extract_delivery_details` (lines 22-56): the
keyword loop, then the fallback of lines 48-56 (first non-product-looking
line containing an address fragment). -/
def extractAddress (text : String) : Option String :=
  let lines := cleanLines text
  match addressKeywordLoop lines with
  | some a => some a
  | none =>
    lines.find? (fun line =>
      !hasProductLinePattern line && looksLikeAddressFragment line)

/-- `extract_delivery_details` (lines 19-83): the address as embedded above
and the `dateparser`-backed date extraction abstracted as `dateExtract`. -/
def extract_delivery_details (dateExtract : String → Option String)
    (text : String) : DeliveryDetailsDict :=
  { address := extractAddress text, date := dateExtract text }

/-! ### Notes extraction (`extract_customer_notes`, lines 111-123) -/

/-- Case-insensitive prefix test over character lists. -/
def listIsPrefixCI : List Char → List Char → Bool
  | [], _ => true
  | _ :: _, [] => false
  | c :: cs, d :: ds => c.toLower = d.toLower && listIsPrefixCI cs ds

/-- `re.search` positioning for a pattern opening with a literal: the text
remaining after the leftmost case-insensitive occurrence of `needle`. -/
def searchCIDrop (needle : List Char) : List Char → Option (List Char)
  | [] => if needle.isEmpty then some [] else none
  | d :: ds =>
    if listIsPrefixCI needle (d :: ds) then some ((d :: ds).drop needle.length)
    else searchCIDrop needle ds

/-- The regex class `[:\-\s]` of the first two note patterns. -/
def noteClassChar (c : Char) : Bool :=
  c = ':' || c = '-' || pyWhitespaceChars.contains c

/-- The capture `(.*)`: everything up to the next newline. -/
def captureRestOfLine (l : List Char) : String :=
  ⟨l.takeWhile (fun c => c ≠ '\n')⟩

/-- Pattern `r'notes?[:\-\s]*(.*)'` (case-insensitive), group 1 stripped. -/
def notesPattern1 (text : String) : Option String :=
  match searchCIDrop "note".data text.data with
  | none => none
  | some rem =>
    let rem1 := match rem with
      | c :: rest => if c.toLower = 's' then rest else c :: rest
      | [] => []
    some (pyStrip (captureRestOfLine (rem1.dropWhile noteClassChar)))

/-- Pattern `r'let me know[:\-\s]*(.*)'`, group 1 stripped. -/
def notesPattern2 (text : String) : Option String :=
  match searchCIDrop "let me know".data text.data with
  | none => none
  | some rem => some (pyStrip (captureRestOfLine (rem.dropWhile noteClassChar)))

/-- Pattern `r'if there are better alternatives for any item, (.*)'`. -/
def notesPattern3 (text : String) : Option String :=
  match searchCIDrop "if there are better alternatives for any item, ".data text.data with
  | none => none
  | some rem => some (pyStrip (captureRestOfLine rem))

/-- Pattern `r'sincerely,\s*(.*)'`. -/
def notesPattern4 (text : String) : Option String :=
  match searchCIDrop "sincerely,".data text.data with
  | none => none
  | some rem =>
    some (pyStrip (captureRestOfLine
      (rem.dropWhile (fun c => pyWhitespaceChars.contains c))))

/-- `EmailProcessor.extract_customer_notes` (lines 111-123): the patterns
are tried in order, first match wins, `None` otherwise. -/
def extract_customer_notes (text : String) : Option String :=
  match notesPattern1 text with
  | some s => some s
  | none =>
    match notesPattern2 text with
    | some s => some s
    | none =>
      match notesPattern3 text with
      | some s => some s
      | none => notesPattern4 text

/-! ### Order assembly (`process_email`, lines 168-199) -/

/-- The `OrderItem(...)` built inside the loop of lines 173-184. -/
def buildOrderItem (catalog : List CatalogRow) (e : ExtractedEntry) : OrderItem :=
  let v := validate_against_catalog catalog e.product e.quantity
  { sku := match e.product with
           | some p => p.Product_Code
           | none => e.extracted_name
    quantity := e.quantity
    confidence_score := e.confidence
    validation_issues := if v.1 then none else some v.2.1
    suggested_replacements := if v.1 then none else some v.2.2
    price := match e.product with
             | some p => p.Price
             | none => 0 }

/-- The list comprehension of line 195: every issue of every item whose
(truthy) issue list is set.  An item's issue list is `None` or non-empty,
so the truthiness test coincides with `Option` matching. -/
def collectIssues (items : List OrderItem) : List String :=
  (items.map (fun it =>
    match it.validation_issues with
    | some l => l
    | none => [])).flatten

/-- `EmailProcessor.process_email` (lines 168-199).  `dateExtract`
abstracts the `dateparser`-backed date extraction inside
`extract_delivery_details`. -/
def process_email (catalog : List CatalogRow)
    (dateExtract : String → Option String) (email : EmailContent) : Order :=
  let extracted_items := extract_products_and_quantities catalog email.raw_content
  let filtered_items := extracted_items.filter (fun e => mkRat 7 10 ≤ e.confidence)
  let order_items := filtered_items.map (buildOrderItem catalog)
  let total_confidence := filtered_items.foldl (fun acc e => acc + e.confidence) 0
  let avg_confidence :=
    if order_items.isEmpty then 0
    else total_confidence / (order_items.length : ℚ)
  let delivery_details := extract_delivery_details dateExtract email.raw_content
  let notes := extract_customer_notes email.raw_content
  Order.fromKwargs
    { order_id := "ORD-" ++ (match email.received_at_fmt with
                             | some s => s
                             | none => "TEMP")
      customer_email := match email.sender with
                        | some s => if s = "" then "unknown@email.com" else s
                        | none => "unknown@email.com"
      items := order_items
      total_confidence_score := avg_confidence
      validation_issues := collectIssues order_items
      delivery_details := delivery_details
      notes := notes }

/-! ### Helper lemmas -/

/-- Two strings whose leading characters differ are different. -/
theorem stringNeOfHead (s t : String) (c1 c2 : Char)
    (h1 : s.data.head? = some c1) (h2 : t.data.head? = some c2)
    (hne : c1 ≠ c2) : s ≠ t := by
  intro he
  rw [he, h2] at h1
  exact hne (Option.some.inj h1).symm

theorem moqMsg_head (p : CatalogRow) (q : Int) :
    (moqMsg p q).data.head? = some 'Q' := rfl

theorem stockMsg_head (p : CatalogRow) (q : Int) :
    (stockMsg p q).data.head? = some 'R' := rfl

theorem notFoundMsg_head : notFoundMsg.data.head? = some 'P' := rfl

theorem moqMsg_ne_stockMsg (p p' : CatalogRow) (q q' : Int) :
    moqMsg p q ≠ stockMsg p' q' :=
  stringNeOfHead _ _ 'Q' 'R' (moqMsg_head p q) (stockMsg_head p' q') (by decide)

theorem moqMsg_ne_notFound (p : CatalogRow) (q : Int) :
    moqMsg p q ≠ notFoundMsg :=
  stringNeOfHead _ _ 'Q' 'P' (moqMsg_head p q) notFoundMsg_head (by decide)

theorem stockMsg_ne_notFound (p : CatalogRow) (q : Int) :
    stockMsg p q ≠ notFoundMsg :=
  stringNeOfHead _ _ 'R' 'P' (stockMsg_head p q) notFoundMsg_head (by decide)

/-- The fold of `getCloseMatch1` yields `none` exactly when it started from
`none` and every candidate scores below the cutoff. -/
theorem gcmFold_none (w : String) (c : ℚ) (l : List String) :
    ∀ acc : Option (ℚ × String), l.foldl (gcmStep w c) acc = none ↔
      (acc = none ∧ ∀ x ∈ l, pyRatioQ x.data w.data < c) := by
  induction l with
  | nil => intro acc; simp
  | cons x l ih =>
    intro acc
    rw [List.foldl_cons, ih]
    cases acc with
    | none =>
      simp only [gcmStep]
      by_cases hc : c ≤ pyRatioQ x.data w.data
      · rw [if_pos hc]
        constructor
        · rintro ⟨h1, -⟩
          exact absurd h1 (by simp)
        · rintro ⟨-, h2⟩
          exact absurd hc (not_le.mpr (h2 x (List.mem_cons_self x l)))
      · rw [if_neg hc]
        constructor
        · rintro ⟨-, h2⟩
          refine ⟨by trivial, fun y hy => ?_⟩
          rcases List.mem_cons.mp hy with rfl | hy'
          · exact not_le.mp hc
          · exact h2 y hy'
        · rintro ⟨-, h2⟩
          exact ⟨by trivial, fun y hy => h2 y (List.mem_cons_of_mem x hy)⟩
    | some p =>
      rcases p with ⟨br, bx⟩
      simp only [gcmStep]
      split_ifs <;> simp

/-- The fold of `getCloseMatch1`, when it yields `some (r, m)` from an
accumulator already above the cutoff, yields a candidate above the cutoff
that dominates every list element and the accumulator. -/
theorem gcmFold_some (w : String) (c : ℚ) (l : List String) :
    ∀ (acc : Option (ℚ × String)) (r : ℚ) (m : String),
      l.foldl (gcmStep w c) acc = some (r, m) →
      (∀ br bx, acc = some (br, bx) → c ≤ br) →
      c ≤ r ∧ (acc = some (r, m) ∨ (m ∈ l ∧ r = pyRatioQ m.data w.data)) ∧
      (∀ x ∈ l, pyRatioQ x.data w.data ≤ r) ∧
      (∀ br bx, acc = some (br, bx) → br ≤ r) := by
  induction l with
  | nil =>
    intro acc r m h hacc
    simp only [List.foldl_nil] at h
    subst h
    refine ⟨hacc r m rfl, Or.inl rfl, by simp, ?_⟩
    intro br bx hb
    simp only [Option.some.injEq, Prod.mk.injEq] at hb
    exact le_of_eq hb.1.symm
  | cons x l ih =>
    intro acc r m h hacc
    rw [List.foldl_cons] at h
    have hstep : ∀ br bx, gcmStep w c acc x = some (br, bx) → c ≤ br := by
      intro br bx hb
      cases acc with
      | none =>
        simp only [gcmStep] at hb
        split_ifs at hb with hc
        · simp only [Option.some.injEq, Prod.mk.injEq] at hb
          rw [← hb.1]
          exact hc
      | some p =>
        rcases p with ⟨br0, bx0⟩
        simp only [gcmStep] at hb
        split_ifs at hb with hc hcmp <;>
          simp only [Option.some.injEq, Prod.mk.injEq] at hb
        · rw [← hb.1]
          exact hc
        · rw [← hb.1]
          exact hacc br0 bx0 rfl
        · rw [← hb.1]
          exact hacc br0 bx0 rfl
    obtain ⟨h1, h2, h3, h4⟩ := ih (gcmStep w c acc x) r m h hstep
    refine ⟨h1, ?_, ?_, ?_⟩
    · -- origin of (r, m)
      rcases h2 with h2 | h2
      · cases acc with
        | none =>
          simp only [gcmStep] at h2
          split_ifs at h2 with hc
          · simp only [Option.some.injEq, Prod.mk.injEq] at h2
            refine Or.inr ⟨?_, ?_⟩
            · rw [← h2.2]
              exact List.mem_cons_self x l
            · rw [← h2.2, ← h2.1]
        | some p =>
          rcases p with ⟨br0, bx0⟩
          simp only [gcmStep] at h2
          split_ifs at h2 with hc hcmp
          · simp only [Option.some.injEq, Prod.mk.injEq] at h2
            refine Or.inr ⟨?_, ?_⟩
            · rw [← h2.2]
              exact List.mem_cons_self x l
            · rw [← h2.2, ← h2.1]
          · exact Or.inl h2
          · exact Or.inl h2
      · exact Or.inr ⟨List.mem_cons_of_mem x h2.1, h2.2⟩
    · -- maximality over x :: l
      intro y hy
      rcases List.mem_cons.mp hy with rfl | hy'
      · by_cases hc : c ≤ pyRatioQ y.data w.data
        · cases acc with
          | none =>
            have hb : gcmStep w c none y = some (pyRatioQ y.data w.data, y) := by
              simp only [gcmStep]
              rw [if_pos hc]
            exact h4 _ _ hb
          | some p =>
            rcases p with ⟨br0, bx0⟩
            by_cases hcmp : br0 < pyRatioQ y.data w.data ∨
                (br0 = pyRatioQ y.data w.data ∧ pyStrLt bx0 y)
            · have hb : gcmStep w c (some (br0, bx0)) y =
                  some (pyRatioQ y.data w.data, y) := by
                simp only [gcmStep]
                rw [if_pos hc, if_pos hcmp]
              exact h4 _ _ hb
            · have hb : gcmStep w c (some (br0, bx0)) y = some (br0, bx0) := by
                simp only [gcmStep]
                rw [if_pos hc, if_neg hcmp]
              have hle : pyRatioQ y.data w.data ≤ br0 :=
                not_lt.mp (not_or.mp hcmp).1
              exact le_trans hle (h4 _ _ hb)
        · exact le_trans (le_of_lt (not_le.mp hc)) h1
      · exact h3 y hy'
    · -- the original accumulator is dominated
      intro br bx hb
      subst hb
      by_cases hc : c ≤ pyRatioQ x.data w.data
      · by_cases hcmp : br < pyRatioQ x.data w.data ∨
            (br = pyRatioQ x.data w.data ∧ pyStrLt bx x)
        · have hb2 : gcmStep w c (some (br, bx)) x =
              some (pyRatioQ x.data w.data, x) := by
            simp only [gcmStep]
            rw [if_pos hc, if_pos hcmp]
          have hr := h4 _ _ hb2
          rcases hcmp with hlt | ⟨heq, -⟩
          · exact le_trans (le_of_lt hlt) hr
          · exact le_trans (le_of_eq heq) hr
        · have hb2 : gcmStep w c (some (br, bx)) x = some (br, bx) := by
            simp only [gcmStep]
            rw [if_pos hc, if_neg hcmp]
          exact h4 _ _ hb2
      · have hb2 : gcmStep w c (some (br, bx)) x = some (br, bx) := by
          simp only [gcmStep]
          rw [if_neg hc]
        exact h4 _ _ hb2

/-- `getCloseMatch1` returns `none` exactly when every candidate scores
below the cutoff. -/
theorem getCloseMatch1_eq_none (w : String) (poss : List String) (c : ℚ) :
    getCloseMatch1 w poss c = none ↔
      ∀ x ∈ poss, pyRatioQ x.data w.data < c := by
  unfold getCloseMatch1
  rw [Option.map_eq_none', gcmFold_none]
  simp

/-- `getCloseMatch1` returns a member of the candidate list scoring at
least the cutoff and at least as high as every candidate. -/
theorem getCloseMatch1_eq_some (w : String) (poss : List String) (c : ℚ)
    (m : String) (h : getCloseMatch1 w poss c = some m) :
    m ∈ poss ∧ c ≤ pyRatioQ m.data w.data ∧
      ∀ x ∈ poss, pyRatioQ x.data w.data ≤ pyRatioQ m.data w.data := by
  unfold getCloseMatch1 at h
  rcases Option.map_eq_some'.mp h with ⟨⟨r, m'⟩, hfold, hm⟩
  simp only at hm
  subst hm
  obtain ⟨h1, h2, h3, -⟩ :=
    gcmFold_some w c poss none r m' hfold (by intro br bx hb; exact Option.noConfusion hb)
  rcases h2 with h2 | ⟨hmem, hr⟩
  · exact Option.noConfusion h2
  · exact ⟨hmem, hr ▸ h1, fun x hx => hr ▸ h3 x hx⟩

/-- The embedded 0.8 cutoff is the rational 4/5. -/
theorem mkRat45_eq : mkRat 4 5 = (4 : ℚ)/5 := by norm_num [Rat.mkRat_eq_div]

/-- The embedded 0.6 cutoff is the rational 3/5. -/
theorem mkRat35_eq : mkRat 3 5 = (3 : ℚ)/5 := by norm_num [Rat.mkRat_eq_div]

/-- The embedded 0.7 keep-threshold is the rational 7/10. -/
theorem mkRat710_eq : mkRat 7 10 = (7 : ℚ)/10 := by norm_num [Rat.mkRat_eq_div]

/-- The embedded 0.5 confidence is the rational 1/2. -/
theorem mkRat12_eq : mkRat 1 2 = (1 : ℚ)/2 := by norm_num [Rat.mkRat_eq_div]

/-! ### Claim C1 -/

/-- C1: the claim states that the `Order` returned by `process_email`
carries the extracted delivery details and notes as fields readable by
downstream consumers.  The code contradicts this: the `Order` model of
`app/models/base.py` declares neither field, so the pydantic constructor
drops the `delivery_details=` and `notes=` keyword arguments that
`process_email` passes.  This theorem exhibits the defect: the constructed
`Order` is unchanged under arbitrary replacement of the delivery details
and notes, and the whole pipeline output is independent of the extracted
delivery date. -/
theorem order_drops_delivery_and_notes :
    (∀ (k : OrderKwargs) (d : DeliveryDetailsDict) (n : Option String),
      Order.fromKwargs { k with delivery_details := d, notes := n } =
        Order.fromKwargs k) ∧
    (∀ (catalog : List CatalogRow) (f g : String → Option String)
      (email : EmailContent),
      process_email catalog f email = process_email catalog g email) := by
  refine ⟨fun k d n => rfl, fun catalog f g email => rfl⟩

/-! ### Claim C3 -/

/-- C3: `validate(p, q)` reports the below-MOQ issue iff `q < p.MOQ` and
the exceeds-stock issue iff `q > p.availableStock` (a concrete call shows
both can co-occur); it is valid exactly when the issue list is empty; and
`validate(absent, q)` reports exactly "Product not found in catalog",
which is neither a MOQ nor a stock issue. -/
theorem validate_reports_iff (catalog : List CatalogRow) (p : CatalogRow) (q : Int) :
    (moqMsg p q ∈ (validate_against_catalog catalog (some p) q).2.1 ↔
      q < p.Min_Order_Quantity) ∧
    (stockMsg p q ∈ (validate_against_catalog catalog (some p) q).2.1 ↔
      p.Available_in_Stock < q) ∧
    ((validate_against_catalog catalog (some p) q).1 = true ↔
      (validate_against_catalog catalog (some p) q).2.1 = []) ∧
    (validate_against_catalog catalog none q = (false, [notFoundMsg], [])) ∧
    (∀ p' q', moqMsg p' q' ∉ (validate_against_catalog catalog none q).2.1) ∧
    (∀ p' q', stockMsg p' q' ∉ (validate_against_catalog catalog none q).2.1) ∧
    (moqMsg ⟨"W", "W-1", 10, 2, 1⟩ 5 ∈
      (validate_against_catalog catalog (some ⟨"W", "W-1", 10, 2, 1⟩) 5).2.1 ∧
     stockMsg ⟨"W", "W-1", 10, 2, 1⟩ 5 ∈
      (validate_against_catalog catalog (some ⟨"W", "W-1", 10, 2, 1⟩) 5).2.1) := by
  refine ⟨?_, ?_, ?_, rfl, ?_, ?_, ?_⟩
  · simp only [validate_against_catalog]
    split_ifs with h1 h2 h2 <;>
      simp [h1, h2, moqMsg_ne_stockMsg]
  · simp only [validate_against_catalog]
    split_ifs with h1 h2 h2 <;>
      simp [h1, h2, (moqMsg_ne_stockMsg p p q q).symm, Ne.symm (moqMsg_ne_stockMsg p p q q)]
  · simp only [validate_against_catalog]
    split_ifs with h1 h2 h2 <;> simp
  · intro p' q'
    simp only [validate_against_catalog]
    simp [moqMsg_ne_notFound]
  · intro p' q'
    simp only [validate_against_catalog]
    simp [stockMsg_ne_notFound]
  · constructor <;> · simp [validate_against_catalog]

/-! ### Claim C4 -/

/-- The confidence accumulation loop of lines 172-185 computes the sum of
the filtered entries' confidences. -/
theorem foldl_conf_sum (l : List ExtractedEntry) :
    ∀ a : ℚ, l.foldl (fun acc e => acc + e.confidence) a =
      a + (l.map (fun e => e.confidence)).sum := by
  induction l with
  | nil => intro a; simp
  | cons e l ih =>
    intro a
    rw [List.foldl_cons, ih]
    simp [add_assoc]

/-- C4: the aggregate confidence of an assembled `Order` is the arithmetic
mean of its items' confidence scores, and exactly `0` when no item survived
the filtering. -/
theorem confidence_is_mean_of_items (catalog : List CatalogRow)
    (dateExtract : String → Option String) (email : EmailContent) :
    (process_email catalog dateExtract email).total_confidence_score =
      if (process_email catalog dateExtract email).items = [] then 0
      else ((process_email catalog dateExtract email).items.map
              (fun i => i.confidence_score)).sum /
           (((process_email catalog dateExtract email).items.length : ℚ)) := by
  simp only [process_email, Order.fromKwargs]
  generalize (extract_products_and_quantities catalog email.raw_content).filter
      (fun e => decide (mkRat 7 10 ≤ e.confidence)) = l
  rw [foldl_conf_sum]
  cases l with
  | nil => simp
  | cons e l =>
    have hne : (e :: l).map (buildOrderItem catalog) ≠ [] := by simp
    rw [if_neg (by simp [List.isEmpty_iff] : ((e :: l).map (buildOrderItem catalog)).isEmpty ≠ true),
        if_neg hne]
    have hmap : ((e :: l).map (buildOrderItem catalog)).map (fun i => i.confidence_score) =
        (e :: l).map (fun e => e.confidence) := by
      rw [List.map_map]
      rfl
    rw [hmap, List.length_map, zero_add]

/-- C3 witness: at quantity 5 against a product with MOQ 10, the MOQ iff
instantiates to a concrete reported issue. -/
theorem validate_reports_iff_witness :
    moqMsg ⟨"W", "W-1", 10, 2, 1⟩ 5 ∈
      (validate_against_catalog [] (some ⟨"W", "W-1", 10, 2, 1⟩) 5).2.1 :=
  (validate_reports_iff [] ⟨"W", "W-1", 10, 2, 1⟩ 5).1.mpr (by decide)

/-! ### Claim C5 -/

/-- C5: the claim states that `validate(absent, q)` supplies fuzzy
suggestions for the unmatched phrase (n=2, cutoff 0.6) whenever such
candidates exist.  The code contradicts this: the suggestion expression is
guarded by `if product else []` inside the `if not product:` branch, so it
is dead code and the suggestion list is always empty (the unmatched phrase
is not even passed to the method).  The invalid flag and the issue are as
claimed. -/
theorem validate_absent_empty_suggestions (catalog : List CatalogRow) (q : Int) :
    validate_against_catalog catalog none q = (false, [notFoundMsg], []) := rfl

/-! ### Pipeline lemmas for C9 and C10 -/

/-- A validation run on a present product never reports the
"Product not found in catalog" issue. -/
theorem notFound_not_in_validate_some (catalog : List CatalogRow)
    (p : CatalogRow) (q : Int) :
    notFoundMsg ∉ (validate_against_catalog catalog (some p) q).2.1 := by
  simp only [validate_against_catalog]
  split_ifs with h1 h2 h2 <;>
    simp [Ne.symm (moqMsg_ne_notFound p q), Ne.symm (stockMsg_ne_notFound p q)]

/-- `find_product` succeeds on any string that is literally one of the
catalog's product names. -/
theorem find_product_name_mem (catalog : List CatalogRow) (m : String)
    (h : m ∈ catalog.map (fun r => r.Product_Name)) :
    ∃ p, find_product catalog m = some p := by
  rcases List.mem_map.mp h with ⟨r, hr, hname⟩
  unfold find_product
  cases hfind : catalog.find? (fun r => pyToLower r.Product_Name = pyToLower m) with
  | some r' => exact ⟨r', rfl⟩
  | none =>
    exfalso
    have hnone := List.find?_eq_none.mp hfind r hr
    apply hnone
    rw [hname]
    simp

/-- Every entry produced by the per-line extractor either carries a resolved
catalog product with confidence `1`, or no product with confidence `1/2`. -/
theorem lineEntry_conf_product (catalog : List CatalogRow) (line : String)
    (e : ExtractedEntry) (h : lineEntry catalog line = some e) :
    (e.confidence = 1 ∧ ∃ p, e.product = some p) ∨
      (e.confidence = 1/2 ∧ e.product = none) := by
  unfold lineEntry at h
  cases hd : firstDigitRun line with
  | none =>
    rw [hd] at h
    exact absurd h (by simp)
  | some n =>
    rw [hd] at h
    dsimp only at h
    cases hm : getCloseMatch1 (candidatePhrase line)
        (catalog.map (fun r => r.Product_Name)) (mkRat 3 5) with
    | some best =>
      rw [hm] at h
      dsimp only at h
      split_ifs at h with hn
      have he : ⟨find_product catalog best, (n : Int), 1, best⟩ = e :=
        Option.some.inj h
      left
      refine ⟨by rw [← he], ?_⟩
      obtain ⟨hmem, -, -⟩ := getCloseMatch1_eq_some _ _ _ _ hm
      obtain ⟨p, hp⟩ := find_product_name_mem catalog best hmem
      exact ⟨p, by rw [← he]; exact hp⟩
    | none =>
      rw [hm] at h
      dsimp only at h
      split_ifs at h with hn
      have he : ⟨none, (n : Int), mkRat 1 2, candidatePhrase line⟩ = e :=
        Option.some.inj h
      right
      exact ⟨by rw [← he, mkRat12_eq], by rw [← he]⟩

/-! ### Claim C9 -/

/-- C9: every `OrderItem` of an assembled `Order` originates from an
extracted entry with confidence at least `0.7` (its confidence score is that
entry's, so the `0.5`-confidence unmatched entries never appear), no order
item carries "Product not found in catalog" among its issues, and a
validation run on a catalog-matched product never produces that issue. -/
theorem order_items_confident_and_found (catalog : List CatalogRow)
    (dateExtract : String → Option String) (email : EmailContent)
    (item : OrderItem)
    (h : item ∈ (process_email catalog dateExtract email).items) :
    (7 : ℚ)/10 ≤ item.confidence_score ∧
      notFoundMsg ∉ item.validation_issues.getD [] ∧
      (∀ p q, notFoundMsg ∉ (validate_against_catalog catalog (some p) q).2.1) := by
  have hitems : (process_email catalog dateExtract email).items =
      ((extract_products_and_quantities catalog email.raw_content).filter
        (fun e => decide (mkRat 7 10 ≤ e.confidence))).map (buildOrderItem catalog) := rfl
  rw [hitems] at h
  rcases List.mem_map.mp h with ⟨e, he, rfl⟩
  rcases List.mem_filter.mp he with ⟨hex, hconf⟩
  have hconf0 : mkRat 7 10 ≤ e.confidence := of_decide_eq_true hconf
  have hconf' : (7 : ℚ)/10 ≤ e.confidence := by rw [← mkRat710_eq]; exact hconf0
  refine ⟨hconf', ?_, fun p q => notFound_not_in_validate_some catalog p q⟩
  rcases List.mem_filterMap.mp hex with ⟨line, hline, hle⟩
  rcases lineEntry_conf_product catalog line e hle with ⟨h1, p, hp⟩ | ⟨h1, hp⟩
  · show notFoundMsg ∉ (buildOrderItem catalog e).validation_issues.getD []
    unfold buildOrderItem
    rw [hp]
    cases hb : (validate_against_catalog catalog (some p) e.quantity).1 with
    | true => simp [hb]
    | false =>
      simp only [hb, Bool.false_eq_true, if_false, Option.getD_some]
      exact notFound_not_in_validate_some catalog p e.quantity
  · rw [h1] at hconf'
    norm_num at hconf'

/-! ### Claim C10 -/

/-- C10: on a line with a quantity whose candidate phrase fuzzy-matched a
catalog name `m` at cutoff 0.6, the noise filter tests `m` — the matched
catalog name — not the raw candidate phrase: the line is dropped exactly
when `m` contains a noise phrase, and otherwise the entry (with confidence
`1` and the resolved product) is kept regardless of what the raw phrase
contains. -/
theorem noise_filter_on_matched_name (catalog : List CatalogRow)
    (line m : String) (n : Nat)
    (hq : firstDigitRun line = some n)
    (hm : getCloseMatch1 (candidatePhrase line)
      (catalog.map (fun r => r.Product_Name)) (mkRat 3 5) = some m) :
    (lineEntry catalog line = none ↔
      ∃ ph ∈ NON_PRODUCT_PHRASES, pyContains (pyToLower m) ph = true) ∧
    ((∀ ph ∈ NON_PRODUCT_PHRASES, pyContains (pyToLower m) ph = false) →
      lineEntry catalog line = some ⟨find_product catalog m, (n : Int), 1, m⟩) := by
  unfold lineEntry
  rw [hq]
  dsimp only
  rw [hm]
  dsimp only
  constructor
  · constructor
    · intro hnone
      by_cases hn : isNoisePhrase m = true
      · simpa [isNoisePhrase, List.any_eq_true] using hn
      · rw [if_neg hn] at hnone
        exact absurd hnone (by simp)
    · intro hex
      have hn : isNoisePhrase m = true := by
        simpa [isNoisePhrase, List.any_eq_true] using hex
      rw [if_pos hn]
  · intro hall
    have hn : ¬ isNoisePhrase m = true := by
      simp only [isNoisePhrase, List.any_eq_true]
      rintro ⟨ph, hph, hc⟩
      rw [hall ph hph] at hc
      exact Bool.false_ne_true hc
    rw [if_neg hn]

/-! ### Claim C2 -/

/-- C2: `findProduct` returns the first product whose name equals the
phrase case-insensitively when one exists; otherwise the first whose code
matches case-insensitively; otherwise, when the best fuzzy match `m` of the
phrase against all names and codes clears similarity `0.8`, the first
product owning `m`; otherwise nothing. -/
theorem find_product_matches_spec (catalog : List CatalogRow)
    (phrase m : String) :
    ((∃ r ∈ catalog, pyToLower r.Product_Name = pyToLower phrase) →
      find_product catalog phrase =
        catalog.find? (fun r => pyToLower r.Product_Name = pyToLower phrase)) ∧
    ((∀ r ∈ catalog, pyToLower r.Product_Name ≠ pyToLower phrase) →
     (∃ r ∈ catalog, pyToLower r.Product_Code = pyToLower phrase) →
      find_product catalog phrase =
        catalog.find? (fun r => pyToLower r.Product_Code = pyToLower phrase)) ∧
    ((∀ r ∈ catalog, pyToLower r.Product_Name ≠ pyToLower phrase ∧
        pyToLower r.Product_Code ≠ pyToLower phrase) →
     (∀ u ∈ allNames catalog, pyRatioQ u.data phrase.data < mkRat 4 5) →
      find_product catalog phrase = none) ∧
    ((∀ r ∈ catalog, pyToLower r.Product_Name ≠ pyToLower phrase ∧
        pyToLower r.Product_Code ≠ pyToLower phrase) →
     getCloseMatch1 phrase (allNames catalog) (mkRat 4 5) = some m →
      m ∈ allNames catalog ∧ (4/5 : ℚ) ≤ pyRatioQ m.data phrase.data ∧
      (∀ u ∈ allNames catalog,
        pyRatioQ u.data phrase.data ≤ pyRatioQ m.data phrase.data) ∧
      find_product catalog phrase =
        catalog.find? (fun r => r.Product_Name = m || r.Product_Code = m) ∧
      (catalog.find? (fun r =>
        r.Product_Name = m || r.Product_Code = m)).isSome = true) := by
  have hnameNone : (∀ r ∈ catalog, pyToLower r.Product_Name ≠ pyToLower phrase) →
      catalog.find? (fun r => pyToLower r.Product_Name = pyToLower phrase) = none := by
    intro hall
    apply List.find?_eq_none.mpr
    intro r hr
    simpa using hall r hr
  have hcodeNone : (∀ r ∈ catalog, pyToLower r.Product_Code ≠ pyToLower phrase) →
      catalog.find? (fun r => pyToLower r.Product_Code = pyToLower phrase) = none := by
    intro hall
    apply List.find?_eq_none.mpr
    intro r hr
    simpa using hall r hr
  refine ⟨?_, ?_, ?_, ?_⟩
  · intro hex
    cases hf : catalog.find? (fun r => pyToLower r.Product_Name = pyToLower phrase) with
    | none =>
      exfalso
      rcases hex with ⟨r, hr, hname⟩
      have := List.find?_eq_none.mp hf r hr
      simp only [decide_eq_true_eq] at this
      exact this hname
    | some r =>
      unfold find_product
      rw [hf]
  · intro hnone hex
    cases hf : catalog.find? (fun r => pyToLower r.Product_Code = pyToLower phrase) with
    | none =>
      exfalso
      rcases hex with ⟨r, hr, hcode⟩
      have := List.find?_eq_none.mp hf r hr
      simp only [decide_eq_true_eq] at this
      exact this hcode
    | some r =>
      unfold find_product
      rw [hnameNone hnone, hf]
  · intro hnone hlow
    have hgcm : getCloseMatch1 phrase (allNames catalog) (mkRat 4 5) = none :=
      (getCloseMatch1_eq_none phrase (allNames catalog) (mkRat 4 5)).mpr hlow
    unfold find_product
    rw [hnameNone (fun r hr => (hnone r hr).1),
        hcodeNone (fun r hr => (hnone r hr).2), hgcm]
  · intro hnone hgcm
    obtain ⟨hmem, hcut, hmax⟩ := getCloseMatch1_eq_some _ _ _ _ hgcm
    rw [mkRat45_eq] at hcut
    refine ⟨hmem, hcut, hmax, ?_, ?_⟩
    · unfold find_product
      rw [hnameNone (fun r hr => (hnone r hr).1),
          hcodeNone (fun r hr => (hnone r hr).2), hgcm]
    · have hex : ∃ r ∈ catalog, (r.Product_Name = m || r.Product_Code = m) = true := by
        rcases List.mem_append.mp hmem with hmem' | hmem'
        · rcases List.mem_map.mp hmem' with ⟨r, hr, hname⟩
          exact ⟨r, hr, by simp [hname]⟩
        · rcases List.mem_map.mp hmem' with ⟨r, hr, hcode⟩
          exact ⟨r, hr, by simp [hcode]⟩
      cases hf : catalog.find? (fun r => r.Product_Name = m || r.Product_Code = m) with
      | none =>
        exfalso
        rcases hex with ⟨r, hr, hpred⟩
        exact absurd hpred (by simpa using List.find?_eq_none.mp hf r hr)
      | some r => rfl

/-- The catalog used to instantiate the C2 characterisation. -/
def wCatalog : List CatalogRow :=
  [⟨"SuperWidget", "SW-100", 10, 50, 4⟩, ⟨"MegaGadget", "MG-200", 2, 5, 7⟩]

/-- C2 witness: the four clauses at concrete inputs — exact name match,
exact code match, garbage below the 0.8 cutoff, and a fuzzy match clearing
the cutoff. -/
theorem find_product_matches_spec_witness :
    find_product wCatalog "superwidget" = some ⟨"SuperWidget", "SW-100", 10, 50, 4⟩ ∧
    find_product wCatalog "mg-200" = some ⟨"MegaGadget", "MG-200", 2, 5, 7⟩ ∧
    find_product wCatalog "zzqqq" = none ∧
    find_product wCatalog "SuperWidgett" = some ⟨"SuperWidget", "SW-100", 10, 50, 4⟩ := by
  refine ⟨?_, ?_, ?_, ?_⟩
  · have h := (find_product_matches_spec wCatalog "superwidget" "").1
      (by decide)
    rw [h]
    decide
  · have h := (find_product_matches_spec wCatalog "mg-200" "").2.1
      (by decide) (by decide)
    rw [h]
    decide
  · exact (find_product_matches_spec wCatalog "zzqqq" "").2.2.1
      (by decide) (by decide)
  · have h := (find_product_matches_spec wCatalog "SuperWidgett" "SuperWidget").2.2.2
      (by decide) (by decide)
    rw [h.2.2.2.1]
    decide

/-! ### Claim C6 -/

/-- C6 counterexample: a catalog source missing the stock column
(`Available_in_Stock`) is loaded successfully by `EmailProcessor.__init__`,
contradicting the claim that loading fails with a `CatalogLoadError`
whenever a required column is missing. -/
theorem load_missing_stock_succeeds :
    emailProcessorInit ⟨["Product_Name", "Product_Code",
      "Min_Order_Quantity", "Price"]⟩ = Except.ok () := rfl

/-- C6 amended: catalog loading performs no required-column validation; it
fails at load time exactly when the `Product_Name` column is absent (a
pandas `KeyError` while building the product-name regex — there is no
`CatalogLoadError` type), and in particular a catalog missing the stock
column loads successfully. -/
theorem init_ok_iff_name_column (frame : CsvFrame) :
    emailProcessorInit frame = Except.ok () ↔ "Product_Name" ∈ frame.columns := by
  simp only [emailProcessorInit]
  split_ifs with h <;> simp [h]

/-! ### Claim C7 -/

/-- A keyword-bearing line contributes nothing to the loop when it has no
address keyword. -/
theorem keywordStepOn_none (l : String) (post : List String)
    (h : keywordOf l = none) : keywordStepOn l post = none := by
  unfold keywordStepOn
  rw [h]

/-- Lines without address keywords are skipped by the keyword loop. -/
theorem addressKeywordLoop_append (pre rest : List String)
    (h : ∀ l ∈ pre, keywordOf l = none) :
    addressKeywordLoop (pre ++ rest) = addressKeywordLoop rest := by
  induction pre with
  | nil => rfl
  | cons p pre ih =>
    rw [List.cons_append]
    show (match keywordStepOn p (pre ++ rest) with
          | some a => some a
          | none => addressKeywordLoop (pre ++ rest)) = addressKeywordLoop rest
    rw [keywordStepOn_none p (pre ++ rest) (h p (List.mem_cons_self p pre))]
    exact ih (fun l hl => h l (List.mem_cons_of_mem p hl))

/-- The address the amended C7 claim assigns to a keyword-bearing line,
where `post` is the list of following stripped non-empty lines: the text
after the first colon — or the whole line when it contains no colon — if
non-empty and not (case-insensitively) the keyword itself; otherwise the
next non-empty line, concatenated with the line after it via ", " when that
line matches an address token or contains a comma. -/
def claimedKeywordAddress (line : String) (post : List String) :
    Option String :=
  match address_keywords.find? (fun k => pyContains (pyToLower line) k) with
  | none => none
  | some keyword =>
    let t := pyStrip (pyAfterColon line)
    if t ≠ "" ∧ pyToLower t ≠ keyword then some t
    else
      match post with
      | [] => none
      | next :: rest =>
        match rest with
        | [] => some next
        | third :: _ =>
          if looksLikeAddressFragment third then some (next ++ ", " ++ third)
          else some next

/-- The claim-side step coincides with the embedded loop body. -/
theorem claimedKeywordAddress_eq (line : String) (post : List String) :
    claimedKeywordAddress line post = keywordStepOn line post := rfl

/-- The text after the first colon as the frozen C7 claim reads it: empty
when the line contains no colon at all. -/
def strictAfterColon (s : String) : String :=
  match afterColonAux s.data with
  | some rest => ⟨rest⟩
  | none => ""

/-- The address assignment the frozen C7 claim makes for a keyword-bearing
line: it falls through to the next non-empty line whenever the line has no
colon, because then there is no "text after the first colon". -/
def claimedKeywordAddressStrict (line : String) (post : List String) :
    Option String :=
  match address_keywords.find? (fun k => pyContains (pyToLower line) k) with
  | none => none
  | some keyword =>
    let t := pyStrip (strictAfterColon line)
    if t ≠ "" ∧ pyToLower t ≠ keyword then some t
    else
      match post with
      | [] => none
      | next :: rest =>
        match rest with
        | [] => some next
        | third :: _ =>
          if looksLikeAddressFragment third then some (next ++ ", " ++ third)
          else some next

/-- C7 counterexample: on the input `"deliver to John\nSomewhere"` the
keyword line contains no colon, so the claim as stated takes the next
non-empty line, "Somewhere"; the code instead takes the whole keyword line
(`line.split(':', 1)[-1]` is the entire line when no colon occurs), and the
two results differ. -/
theorem address_no_colon_counterexample :
    claimedKeywordAddressStrict "deliver to John" ["Somewhere"] =
      some "Somewhere" ∧
    extractAddress "deliver to John\nSomewhere" = some "deliver to John" ∧
    ("deliver to John" : String) ≠ "Somewhere" := by
  exact ⟨by decide, by decide, by decide⟩

/-- C7 amended: when the first line holding an address keyword assigns an
address under the amended rule — text after the first colon, or the whole
line when it has no colon, if non-empty and not the keyword; else the next
non-empty line, extended with the following line via ", " when that looks
like an address fragment — the extractor returns exactly that address. -/
theorem address_keyword_line_amended (text : String) (pre : List String)
    (line : String) (post : List String) (a : String)
    (hsplit : cleanLines text = pre ++ line :: post)
    (hpre : ∀ l ∈ pre, ∀ k ∈ address_keywords,
      pyContains (pyToLower l) k = false)
    (hres : claimedKeywordAddress line post = some a) :
    extractAddress text = some a := by
  have hk : ∀ l ∈ pre, keywordOf l = none := by
    intro l hl
    apply List.find?_eq_none.mpr
    intro k hkmem
    simp [hpre l hl k hkmem]
  have hstep : keywordStepOn line post = some a := by
    rw [← claimedKeywordAddress_eq]
    exact hres
  unfold extractAddress
  rw [hsplit]
  dsimp only
  rw [addressKeywordLoop_append pre (line :: post) hk]
  show (match (match keywordStepOn line post with
              | some a => some a
              | none => addressKeywordLoop post) with
        | some a => some a
        | none => _) = some a
  rw [hstep]

/-- C7 witness: the claim's own scenario, `"Ship to: 123 Main Street,
Springfield"`, through the amended rule. -/
theorem address_keyword_line_witness :
    extractAddress "Ship to: 123 Main Street, Springfield" =
      some "123 Main Street, Springfield" :=
  address_keyword_line_amended _ [] "Ship to: 123 Main Street, Springfield" [] _
    (by decide) (by intro l hl; exact absurd hl (List.not_mem_nil l))
    (by decide)

/-! ### Claim C8 -/

/-- C8 counterexample: on the line `"pricing 5"` with any catalog that does
not fuzzy-match it, the claim as stated keeps the raw phrase `"pricing"`
verbatim with product absent and confidence `0.5`, but the noise filter
(which the claim omits) discards the line, so the extractor returns no
entry at all. -/
theorem extractor_noise_line_counterexample :
    extract_products_and_quantities [] "pricing 5" = [] ∧
    (⟨none, 5, mkRat 1 2, "pricing"⟩ : ExtractedEntry) ∉
      extract_products_and_quantities [] "pricing 5" := by
  exact ⟨by decide, by decide⟩

/-- The per-line behaviour of the amended C8 claim: skip lines without a
digit run; quantity is the first digit run as an integer; the phrase is the
line minus digit runs, trimmed of the separator characters; a fuzzy match
against catalog names at 0.6 resolves the full product with confidence `1`,
otherwise the raw phrase is kept verbatim with product absent and
confidence `0.5` — except that the entry is dropped when its final phrase
(the matched catalog name when matched, the raw phrase otherwise) contains
a noise term. -/
def claimedProductLineStep (catalog : List CatalogRow) (line : String) :
    Option ExtractedEntry :=
  match firstDigitRun line with
  | none => none
  | some n =>
    let phrase := pyStripChars sepChars (removeDigits line)
    match getCloseMatch1 phrase (catalog.map (fun r => r.Product_Name))
        (mkRat 3 5) with
    | some matchedName =>
      if isNoisePhrase matchedName then none
      else some ⟨find_product catalog matchedName, (n : Int), 1, matchedName⟩
    | none =>
      if isNoisePhrase phrase then none
      else some ⟨none, (n : Int), mkRat 1 2, phrase⟩

/-- C8 amended: the extractor is exactly the line-by-line map of the
amended per-line rule over the split input. -/
theorem extractor_step_amended (catalog : List CatalogRow) (text : String) :
    extract_products_and_quantities catalog text =
      (pySplitlines text).filterMap (claimedProductLineStep catalog) := by
  unfold extract_products_and_quantities
  congr 1
  funext line
  unfold lineEntry claimedProductLineStep candidatePhrase
  cases hd : firstDigitRun line with
  | none => rfl
  | some n =>
    dsimp only
    cases hm : getCloseMatch1 (pyStripChars sepChars (removeDigits line))
        (catalog.map (fun r => r.Product_Name)) (mkRat 3 5) with
    | some best => rfl
    | none => rfl

/-! ### Witnesses for C9 and C10 -/

/-- A one-product catalog for the C9 witness. -/
def wCatalogA : List CatalogRow := [⟨"SuperWidget", "SW-1", 1, 100, 4⟩]

/-- C9 witness: the pipeline on `"5 SuperWidget"` produces the order item
for `SW-1`, and the theorem instantiates to it. -/
theorem order_items_confident_witness :
    (7 : ℚ)/10 ≤
      (⟨"SW-1", (5 : Int), 1, none, none, none, (4 : ℚ)⟩ : OrderItem).confidence_score ∧
    notFoundMsg ∉
      (⟨"SW-1", (5 : Int), 1, none, none, none, (4 : ℚ)⟩ : OrderItem).validation_issues.getD [] := by
  have h := order_items_confident_and_found wCatalogA (fun _ => none)
    ⟨"5 SuperWidget", none, none⟩
    ⟨"SW-1", (5 : Int), 1, none, none, none, (4 : ℚ)⟩ (by decide)
  exact ⟨h.1, h.2.1⟩

/-- A catalog whose only product name contains the noise term "japan". -/
def wCatalogJ : List CatalogRow := [⟨"Widget Japan", "WJ-1", 1, 10, 2⟩]

/-- A catalog whose only product name is free of noise terms but
fuzzy-matches a noisy raw phrase. -/
def wCatalogB : List CatalogRow := [⟨"Japon Widget", "JW-1", 1, 10, 2⟩]

/-- C10 witness: `"4 Widget Japan"` fuzzy-matches the catalog name
`"Widget Japan"` (confidence 1) yet is discarded because the matched name
contains "japan"; `"japan Widget 4"` has a noisy raw phrase but matches the
clean name `"Japon Widget"` and is kept with the resolved product. -/
theorem noise_filter_witness :
    lineEntry wCatalogJ "4 Widget Japan" = none ∧
    lineEntry wCatalogB "japan Widget 4" =
      some ⟨some ⟨"Japon Widget", "JW-1", 1, 10, 2⟩, 4, 1, "Japon Widget"⟩ := by
  constructor
  · exact (noise_filter_on_matched_name wCatalogJ "4 Widget Japan"
      "Widget Japan" 4 (by decide) (by decide)).1.mpr
      ⟨"japan", by decide, by decide⟩
  · have h := (noise_filter_on_matched_name wCatalogB "japan Widget 4"
      "Japon Widget" 4 (by decide) (by decide)).2 (by decide)
    rw [h]
    decide

end EmailProcessorModel
